import Mathlib

/-!
Shallow embedding of `src/arxiv_paper_fetcher.py` (repository
t46/arxiv-paper-fetcher) in Lean 4, together with theorems settling the
frozen claims about the program.

Modelling conventions:
* Python strings are `List Char`; Python substring containment (`k in s`)
  is `containsSub`; `str.lower()` is `toLowerStr` (per-character
  `Char.toLower`, adequate for the ASCII keywords and URLs involved).
* `datetime.date` is `Date` (a day number); `datetime.datetime` is
  `DateTime` (a day number plus seconds within the day).  Calls to
  `datetime.datetime.now()` are modelled by passing the observed value
  explicitly: the code calls `now()` separately in `fetch_papers` and in
  each `is_published_yesterday` call, so each call site gets its own
  parameter.
* Network interactions (the arxiv client, `requests.get` of the paper
  page, the Notion API) are modelled by passing in their responses: the
  arxiv results as a list, the paper page fetch as a function
  `List Char → Except (List Char) Page`, the Notion database query as a
  chain of cursor pages, and the Notion page-create call as a function
  returning `Except` (an exception or success).
* Print-based observable behaviour of `process_papers` and `main` is
  modelled as an explicit event trace.
-/

/-- Python str.lower() on a string, character by character. -/
def toLowerStr (s : List Char) : List Char := s.map Char.toLower

/-- Test whether `pat` is an initial segment of `s`. -/
def startsWithL : List Char → List Char → Bool
  | [], _ => true
  | _ :: _, [] => false
  | p :: ps, c :: cs => p == c && startsWithL ps cs

/-- Python substring containment `pat in s` (true for the empty pattern). -/
def containsSub : List Char → List Char → Bool
  | s, pat =>
    if startsWithL pat s then true
    else
      match s with
      | [] => false
      | _ :: cs => containsSub cs pat

/-- Model of the ArxivFilter object: the constructor lower-cases every
keyword. -/
structure ArxivFilter where
  keywords : List (List Char)

/-- Constructor `ArxivFilter.__init__`. -/
def ArxivFilter.make (keywords : List (List Char)) : ArxivFilter :=
  ⟨keywords.map toLowerStr⟩

/-- Method `ArxivFilter.matches_keywords`: lower-case the abstract and test each
stored keyword for substring containment. -/
def ArxivFilter.matches_keywords (f : ArxivFilter) (abstract : List Char) :
    Bool :=
  f.keywords.any (fun keyword => containsSub (toLowerStr abstract) keyword)

/-- A calendar date, as a day number. -/
structure Date where
  day : Int
deriving DecidableEq

/-- A timestamp: a day number plus seconds elapsed within that day. -/
structure DateTime where
  day : Int
  sec : Nat
deriving DecidableEq

/-- The `datetime.date()` component of a timestamp. -/
def DateTime.date (t : DateTime) : Date := ⟨t.day⟩

/-- The reference date the code computes:
`datetime.datetime.now().date() - datetime.timedelta(days=10)`. -/
def targetDate (now : Date) : Date := ⟨now.day - 10⟩

/-- Method `ArxivFilter.is_published_yesterday`: the code recomputes
`now().date() - 10 days` at each call and compares date components.
`now` is the date observed by this call. -/
def ArxivFilter.is_published_yesterday (now : Date)
    (published : DateTime) : Bool :=
  decide (published.date = targetDate now)

/-- One result object yielded by the arxiv client. -/
structure ArxivResult where
  title : List Char
  authors : List (List Char)
  summary : List Char
  pdf_url : List Char
  entry_id : List Char
  published : DateTime
  updated : DateTime
  categories : List (List Char)
deriving DecidableEq

/-- The `paper_info` dictionary built by `ArxivFetcher.fetch_papers`.
The dictionary has no `github_url` key at this point; `CsvSaver.save`
reads it with `paper.get('github_url', '')`, so it is carried as an
`Option` that `fetch_papers` leaves at `none`. -/
structure PaperInfo where
  title : List Char
  authors : List (List Char)
  summary : List Char
  pdf_url : List Char
  entry_id : List Char
  published : DateTime
  updated : DateTime
  categories : List (List Char)
  keywords : List (List Char)
  github_url : Option (List Char) := none
deriving DecidableEq

/-- The arxiv query string
`cat:cs.LG AND submittedDate:[{date_str}0000 TO {next_date_str}0000]`,
kept structured: category plus the half-open day window. -/
structure ArxivQuery where
  category : List Char
  fromDate : Date
  toDate : Date
deriving DecidableEq

/-- Query construction in `fetch_papers`: `yesterday = now().date() - 10
days`, window `[yesterday, yesterday + 1 day)`.  `nowq` is the date
observed by the `now()` call inside `fetch_papers`. -/
def build_query (nowq : Date) : ArxivQuery :=
  ⟨"cs.LG".toList, targetDate nowq, ⟨(targetDate nowq).day + 1⟩⟩

/-- The dictionary `fetch_papers` appends for a surviving result:
`keywords` is `self.keywords`, the original (un-lowercased) user list. -/
def paperInfoOf (keywords : List (List Char)) (r : ArxivResult) :
    PaperInfo :=
  { title := r.title, authors := r.authors, summary := r.summary,
    pdf_url := r.pdf_url, entry_id := r.entry_id,
    published := r.published, updated := r.updated,
    categories := r.categories, keywords := keywords }

/-- Method `ArxivFetcher.fetch_papers`.  `results` pairs each client result with
the date observed by the `now()` call inside the
`is_published_yesterday` check for that result (the code calls `now()`
afresh per check).  Returns the constructed query together with the
filtered paper list. -/
def fetch_papers (keywords : List (List Char)) (nowq : Date)
    (results : List (ArxivResult × Date)) :
    ArxivQuery × List PaperInfo :=
  (build_query nowq,
    results.filterMap (fun rc =>
      if (ArxivFilter.make keywords).matches_keywords rc.1.summary
          && ArxivFilter.is_published_yesterday rc.2 rc.1.published
      then some (paperInfoOf keywords rc.1)
      else none))

/-- A CSV cell: either a string field or the formatted timestamp (the
digit rendering of `strftime` is abstracted to the timestamp value). -/
inductive Cell where
  | str (s : List Char)
  | time (t : DateTime)
deriving DecidableEq

/-- The header row `title,paper_url,github_url,published,keywords`
written by `DictWriter.writeheader`. -/
def csv_header : List Cell :=
  [Cell.str "title".toList, Cell.str "paper_url".toList,
    Cell.str "github_url".toList, Cell.str "published".toList,
    Cell.str "keywords".toList]

/-- Python `', '.join(paper['keywords'])`. -/
def joinCommaSpace (keywords : List (List Char)) : List Char :=
  (List.intercalate (", ".toList) keywords)

/-- The row `writerow` emits for one paper dictionary, in the fixed
field order of the `DictWriter`. -/
def csvRowOf (p : PaperInfo) : List Cell :=
  [Cell.str p.title, Cell.str p.pdf_url,
    Cell.str (p.github_url.getD []), Cell.time p.published,
    Cell.str (joinCommaSpace p.keywords)]

/-- Method `CsvSaver.save`: the file is opened with `mode='w'`, which truncates
whatever `prior` rows the file held, then `writeheader` and one
`writerow` per paper.  The `prior` contents are therefore ignored. -/
def CsvSaver.save (papers : List PaperInfo)
    (_prior : List (List Cell)) : List (List Cell) :=
  csv_header :: papers.map csvRowOf

/-- The dictionary `process_papers` assembles before calling
`create_page`. -/
structure NotionPaperInfo where
  title : List Char
  paper_url : List Char
  github_url : Option (List Char)
  published : DateTime
  keywords : List (List Char)
deriving DecidableEq

/-- The property map `create_page` posts to the Notion API:
`Published Date` takes `published.split()[0]`, the date component. -/
structure NotionProperties where
  title : List Char
  paper_url : List Char
  github_url : Option (List Char)
  published_start : Date
  keywords : List (List Char)
deriving DecidableEq

/-- Method `NotionClient.create_page`: the payload built from `paper_info`
(the network POST itself is external; its outcome is a parameter of
`process_papers`). -/
def NotionClient.create_page (info : NotionPaperInfo) :
    NotionProperties :=
  { title := info.title, paper_url := info.paper_url,
    github_url := info.github_url,
    published_start := info.published.date,
    keywords := info.keywords }

/-- One page object returned inside `data["results"]` of a Notion
database query: only its `Paper URL` property is read. -/
structure NotionPage where
  paper_url : Option (List Char)
deriving DecidableEq

/-- One response of the Notion database query endpoint.  The cursor
chain is modelled positionally: querying with the cursor of response
`i` yields response `i + 1`. -/
structure QueryResp where
  results : List NotionPage
  has_more : Bool
deriving DecidableEq

/-- The URLs one response contributes: `if paper_url:` keeps only
non-`None`, non-empty values. -/
def pageUrls (r : QueryResp) : List (List Char) :=
  r.results.filterMap (fun pg =>
    pg.paper_url.bind (fun u => if u.isEmpty then none else some u))

/-- Method `NotionClient.get_existing_paper_urls`: the `while has_more` loop,
walking the cursor chain while each response reports `has_more`. -/
def NotionClient.get_existing_paper_urls :
    List QueryResp → List (List Char)
  | [] => []
  | r :: rs =>
    pageUrls r ++
      (if r.has_more then NotionClient.get_existing_paper_urls rs else [])

/-- A chain of query responses is well formed when it is the complete
response sequence of the server: nonempty, every response but the last
reports `has_more = true`, and the last reports `has_more = false`. -/
def chainOk : List QueryResp → Bool
  | [] => false
  | [r] => !r.has_more
  | r :: rs => r.has_more && chainOk rs

/-- Characters admitted by `[a-zA-Z0-9-]` (the owner segment). -/
def isOwnerChar (c : Char) : Bool := c.isAlphanum || c == '-'

/-- Characters admitted by `[a-zA-Z0-9._-]` (the repo segment). -/
def isRepoChar (c : Char) : Bool :=
  c.isAlphanum || c == '.' || c == '_' || c == '-'

/-- Strip a literal pattern off the front of a string, returning the
remainder on success. -/
def stripPre : List Char → List Char → Option (List Char)
  | [], s => some s
  | _ :: _, [] => none
  | p :: ps, c :: cs => if p == c then stripPre ps cs else none

/-- Match the literal scheme-and-host part `https?://github\.com/` of
the pattern at the head of `s`; on success return the matched literal
and the remainder. -/
def ghHead (s : List Char) : Option (List Char × List Char) :=
  match stripPre "https://github.com/".toList s with
  | some rest => some ("https://github.com/".toList, rest)
  | none =>
    match stripPre "http://github.com/".toList s with
    | some rest => some ("http://github.com/".toList, rest)
    | none => none

/-- Match the regex
`https?://github\.com/[a-zA-Z0-9-]+/[a-zA-Z0-9._-]+` anchored at the
head of `s` (greedy, as `re` matches it), returning the matched text. -/
def matchGithubAt (s : List Char) : Option (List Char) :=
  match ghHead s with
  | none => none
  | some (pre, rest) =>
    let owner := rest.takeWhile isOwnerChar
    match rest.dropWhile isOwnerChar with
    | '/' :: rest3 =>
      let repo := rest3.takeWhile isRepoChar
      if owner.isEmpty || repo.isEmpty then none
      else some (pre ++ owner ++ ['/'] ++ repo)
    | _ => none

/-- The first match of the github regex in `s` in document order:
`re.findall(...)[0]` for the head of the list, and also `re.search`,
both of which scan left to right. -/
def firstGithubUrl : List Char → Option (List Char)
  | [] => none
  | c :: cs =>
    match matchGithubAt (c :: cs) with
    | some m => some m
    | none => firstGithubUrl cs

/-- Python `pdf_url.replace('.pdf', '')`: remove every (left-to-right,
non-overlapping) occurrence of `.pdf`. -/
def replacePdf : List Char → List Char
  | '.' :: 'p' :: 'd' :: 'f' :: rest => replacePdf rest
  | c :: cs => c :: replacePdf cs
  | [] => []

/-- The section of the paper page a link sits in.  The repository code
never inspects sections; they exist in the page model so that the
section-staged extractor described by the spec can be stated and
compared against the code. -/
inductive PageSection where
  | secAbstract
  | secIntro
  | secOther
deriving DecidableEq

/-- One `<a>` element of the parsed paper page. -/
structure PageLink where
  href : List Char
  sec : PageSection
deriving DecidableEq

/-- The parsed paper page: its `<a>` elements in document order. -/
structure Page where
  links : List PageLink
deriving DecidableEq

/-- The test `'github.com' in href` of the link loop. -/
def hrefHasGithub (l : PageLink) : Bool :=
  containsSub l.href "github.com".toList

/-- The `for link in soup.find_all('a')` loop: take the first link whose
href contains `github.com` and yields a regex match; a link that
contains `github.com` but does not match the pattern is passed over. -/
def findInLinks : List PageLink → Option (List Char)
  | [] => none
  | l :: ls =>
    if hrefHasGithub l then
      match firstGithubUrl l.href with
      | some m => some m
      | none => findInLinks ls
    else findInLinks ls

/-- What one link contributes under the loop: its first regex match,
guarded by the `'github.com' in href` test. -/
def linkHit (l : PageLink) : Option (List Char) :=
  if hrefHasGithub l then firstGithubUrl l.href else none

/-- Method `ArxivPaperProcessor.extract_github_url`.  `fetchPage` models
`requests.get` plus `raise_for_status` plus HTML parsing of the page at
the given URL: an exception or a parsed page.  A raised exception is
caught, a warning is printed, and the fall-through returns `None`. -/
def extract_github_url (fetchPage : List Char → Except (List Char) Page)
    (abstract : List Char) (pdf_url : List Char) : Option (List Char) :=
  match firstGithubUrl abstract with
  | some u => some u
  | none =>
    match fetchPage (replacePdf pdf_url) with
    | Except.error _ => none
    | Except.ok page => findInLinks page.links

/-- Modelled from the spec (RepositoryLinkExtractor, stages 2 and 3),
for comparison with `extract_github_url`: after a failed stage 1, scan
only the links of a semantically identified abstract section of the
page; only if that yields nothing, scan only the links of an
introduction section of the same page. -/
def extract_staged (fetchPage : List Char → Except (List Char) Page)
    (abstract : List Char) (pdf_url : List Char) : Option (List Char) :=
  match firstGithubUrl abstract with
  | some u => some u
  | none =>
    match fetchPage (replacePdf pdf_url) with
    | Except.error _ => none
    | Except.ok page =>
      match findInLinks
          (page.links.filter (fun l => l.sec = PageSection.secAbstract)) with
      | some u => some u
      | none =>
        findInLinks
          (page.links.filter (fun l => l.sec = PageSection.secIntro))

/-- One observable event of `process_papers`: the single upfront
existing-URL snapshot query, then per paper either the skip print, the
success print after `create_page`, or the caught-exception print. -/
inductive ProcEvent where
  | snapshotQuery
  | skipped (title : List Char)
  | added (title : List Char) (info : NotionPaperInfo)
  | failed (title : List Char) (err : List Char)
deriving DecidableEq

/-- The `notion_paper_info` dictionary the loop body builds for a paper
that passed the dedup check: the single extracted URL is attached. -/
def notionInfoOf (fetchPage : List Char → Except (List Char) Page)
    (p : PaperInfo) : NotionPaperInfo :=
  { title := p.title, paper_url := p.pdf_url,
    github_url := extract_github_url fetchPage p.summary p.pdf_url,
    published := p.published, keywords := p.keywords }

/-- The body of the `for paper in papers` loop for one paper, given the
snapshot `existing`, the page fetcher, and the outcome `persist` of the
`create_page` POST for each payload. -/
def processOne (fetchPage : List Char → Except (List Char) Page)
    (persist : NotionPaperInfo → Except (List Char) Unit)
    (existing : List (List Char)) (paper : PaperInfo) : ProcEvent :=
  if existing.contains paper.pdf_url then
    ProcEvent.skipped paper.title
  else
    match persist (notionInfoOf fetchPage paper) with
    | Except.ok _ => ProcEvent.added paper.title (notionInfoOf fetchPage paper)
    | Except.error e => ProcEvent.failed paper.title e

/-- Whether the `create_page` call for a non-skipped paper raises. -/
def persistFails (fetchPage : List Char → Except (List Char) Page)
    (persist : NotionPaperInfo → Except (List Char) Unit)
    (p : PaperInfo) : Bool :=
  match persist (notionInfoOf fetchPage p) with
  | Except.ok _ => false
  | Except.error _ => true

/-- Method `ArxivPaperProcessor.process_papers`: one snapshot via
`get_existing_paper_urls` (over the response chain `chain`), then the
per-paper loop; a `create_page` exception is caught, printed with the
title and reason, and the loop continues. -/
def process_papers (chain : List QueryResp)
    (fetchPage : List Char → Except (List Char) Page)
    (persist : NotionPaperInfo → Except (List Char) Unit)
    (papers : List PaperInfo) : List ProcEvent :=
  ProcEvent.snapshotQuery ::
    papers.map
      (processOne fetchPage persist
        (NotionClient.get_existing_paper_urls chain))

/-- Whether a trace event is a caught persist failure. -/
def isFailEv : ProcEvent → Bool
  | ProcEvent.failed _ _ => true
  | _ => false

/-- Whether a trace event is the snapshot query. -/
def isSnapEv : ProcEvent → Bool
  | ProcEvent.snapshotQuery => true
  | _ => false

/-- Count of papers whose persist attempt failed, read off the trace
(the error print lines of the run). -/
def failedCount (trace : List ProcEvent) : Nat :=
  (trace.filter isFailEv).length

/-- Count of snapshot queries appearing in the trace. -/
def snapCount (trace : List ProcEvent) : Nat :=
  (trace.filter isSnapEv).length

/-- The environment variables `main` reads via `os.getenv`. -/
structure Env where
  notion_token : Option (List Char)
  notion_database_id : Option (List Char)
  csv_path : Option (List Char)
deriving DecidableEq

/-- Python truthiness of an optional string (`not x` is true for `None`
and for the empty string). -/
def truthy : Option (List Char) → Bool
  | none => false
  | some s => !s.isEmpty

/-- The observable steps of `main`, in order. -/
inductive MainStep where
  | invalidDestination
  | fetchRun
  | configFailure (msg : List Char)
  | savedCsv
  | processedNotion
deriving DecidableEq

/-- The `ValueError` message for missing Notion credentials. -/
def notionMsg : List Char :=
  "NOTION_TOKEN and NOTION_DATABASE_ID environment variables are required for Notion.".toList

/-- The `ValueError` message for a missing CSV path. -/
def csvMsg : List Char :=
  "CSV_PATH environment variable is required for saving to CSV.".toList

/-- The function `main`, as the ordered trace of its observable steps.  `save_to` is
the destination string after `strip().lower()`; an empty input falls
back to the default `csv`.  The destination selector is validated
before the fetch, but the credential and path checks only run after
`fetcher.fetch_papers()` has completed. -/
def main_trace (save_to : List Char) (env : Env) : List MainStep :=
  let st := if save_to.isEmpty then "csv".toList else save_to
  if st = "notion".toList ∨ st = "csv".toList then
    MainStep.fetchRun ::
      (if st = "notion".toList then
        if truthy env.notion_token && truthy env.notion_database_id then
          [MainStep.processedNotion]
        else [MainStep.configFailure notionMsg]
      else
        if truthy env.csv_path then [MainStep.savedCsv]
        else [MainStep.configFailure csvMsg])
  else
    [MainStep.invalidDestination]

/-! Concrete inputs used by the counterexample and witness theorems. -/

/-- A repository URL placed outside any abstract section. -/
def ghUrlA : List Char := "https://github.com/other/place".toList

/-- A repository URL placed inside the abstract section. -/
def ghUrlB : List Char := "https://github.com/acme/diffuse".toList

/-- A paper page whose abstract section holds `ghUrlB` but whose first
link in document order is `ghUrlA`, sitting outside that section. -/
def page0 : Page :=
  ⟨[⟨ghUrlA, PageSection.secOther⟩, ⟨ghUrlB, PageSection.secAbstract⟩]⟩

/-- A fetcher that always serves `page0`. -/
def fetchPage0 : List Char → Except (List Char) Page :=
  fun _ => Except.ok page0

/-- A fetcher whose requests always raise. -/
def noPage : List Char → Except (List Char) Page :=
  fun _ => Except.error "connection refused".toList

/-- A minimal paper dictionary with the given title and pdf URL. -/
def mkPaper (t u : List Char) : PaperInfo :=
  { title := t, authors := [], summary := [], pdf_url := u,
    entry_id := [], published := ⟨0, 0⟩, updated := ⟨0, 0⟩,
    categories := [], keywords := [] }

/-- Sample batch entries. -/
def paperA : PaperInfo := mkPaper "A".toList "uA".toList

def paperB : PaperInfo := mkPaper "B".toList "uB".toList

def paperC : PaperInfo := mkPaper "C".toList "uC".toList

/-- A persist outcome that raises exactly on the paper titled `B`. -/
def persistNotB : NotionPaperInfo → Except (List Char) Unit :=
  fun info =>
    if info.title == "B".toList then Except.error "boom".toList
    else Except.ok ()

/-- A Notion database whose query returns a single empty page. -/
def emptyChain : List QueryResp := [⟨[], false⟩]

/-- A two-response cursor chain: the first response reports `has_more`,
the second ends the chain; one `Paper URL` is `None` and one is the
empty string, both of which the loop must drop. -/
def chain2 : List QueryResp :=
  [⟨[⟨some "u1".toList⟩, ⟨none⟩], true⟩,
    ⟨[⟨some []⟩, ⟨some "u2".toList⟩], false⟩]

/-- A client result whose summary matches the keyword `ml` and whose
publication timestamp sits on day 90. -/
def resultML : ArxivResult :=
  { title := "T".toList, authors := [], summary := "ml".toList,
    pdf_url := "uT".toList, entry_id := [], published := ⟨90, 0⟩,
    updated := ⟨90, 0⟩, categories := [] }

/-- The keyword list used by the date-consistency inputs. -/
def kwML : List (List Char) := ["ml".toList]

/-! Helper lemmas shared by the claim theorems. -/

theorem subOfPre {p s : List Char} (h : p <+: s) : p <:+: s := by
  rcases h with ⟨t, rfl⟩
  exact ⟨[], t, rfl⟩

theorem subOfTail {p s : List Char} {c : Char} (h : p <:+: s) :
    p <:+: c :: s := by
  rcases h with ⟨u, v, rfl⟩
  exact ⟨c :: u, v, rfl⟩

theorem startsWithL_iff (pat s : List Char) :
    startsWithL pat s = true ↔ pat <+: s := by
  induction pat generalizing s with
  | nil => simp [startsWithL]
  | cons p ps ih =>
    cases s with
    | nil => simp [startsWithL]
    | cons c cs =>
      simp only [startsWithL, Bool.and_eq_true, beq_iff_eq, ih,
        List.cons_prefix_cons]

theorem containsSub_iff (s pat : List Char) :
    containsSub s pat = true ↔ pat <:+: s := by
  induction s with
  | nil =>
    simp only [containsSub, startsWithL_iff]
    constructor
    · intro h
      split at h
      · exact subOfPre (by assumption)
      · exact absurd h (by simp)
    · intro h
      have := List.eq_nil_of_infix_nil h
      subst this
      simp
  | cons c cs ih =>
    rw [containsSub]
    constructor
    · intro h
      split at h
      · exact subOfPre ((startsWithL_iff _ _).mp (by assumption))
      · exact subOfTail (ih.mp h)
    · intro h
      rcases h with ⟨t₁, t₂, ht⟩
      cases t₁ with
      | nil =>
        have : pat <+: c :: cs := ⟨t₂, by simpa using ht⟩
        simp [(startsWithL_iff pat (c :: cs)).mpr this]
      | cons a t₁ =>
        split
        · rfl
        · have h2 : a :: (t₁ ++ (pat ++ t₂)) = c :: cs := by simpa using ht
          exact ih.mpr ⟨t₁, t₂, by simpa using congrArg List.tail h2⟩

theorem mem_pageUrls (r : QueryResp) (u : List Char) :
    u ∈ pageUrls r ↔
      ∃ pg ∈ r.results, pg.paper_url = some u ∧ u.isEmpty = false := by
  simp only [pageUrls, List.mem_filterMap, Option.bind_eq_some]
  constructor
  · rintro ⟨pg, hpg, v, hv, hg⟩
    by_cases he : v.isEmpty = true
    · simp [he] at hg
    · simp only [he, if_false] at hg
      cases hg
      exact ⟨pg, hpg, hv, by simpa using he⟩
  · rintro ⟨pg, hpg, hv, he⟩
    exact ⟨pg, hpg, u, hv, by simp [he]⟩

theorem mem_existing_urls (chain : List QueryResp) (u : List Char) :
    chainOk chain = true →
      (u ∈ NotionClient.get_existing_paper_urls chain ↔
        ∃ r ∈ chain, ∃ pg ∈ r.results,
          pg.paper_url = some u ∧ u.isEmpty = false) := by
  induction chain with
  | nil => intro h; simp [chainOk] at h
  | cons r rs ih =>
    intro h
    cases rs with
    | nil =>
      have hm : r.has_more = false := by simpa [chainOk] using h
      simp [NotionClient.get_existing_paper_urls, hm, mem_pageUrls]
    | cons s t =>
      have hm : r.has_more = true ∧ chainOk (s :: t) = true := by
        simpa [chainOk] using h
      rw [NotionClient.get_existing_paper_urls]
      rw [hm.1, if_pos rfl]
      constructor
      · intro hmem
        rcases List.mem_append.mp hmem with hl | hr
        · exact ⟨r, List.mem_cons_self _ _, (mem_pageUrls r u).mp hl⟩
        · obtain ⟨r2, hr2, hrest⟩ := (ih hm.2).mp hr
          exact ⟨r2, List.mem_cons_of_mem _ hr2, hrest⟩
      · rintro ⟨r2, hr2, hrest⟩
        rcases List.mem_cons.mp hr2 with rfl | hr2
        · exact List.mem_append.mpr (Or.inl ((mem_pageUrls r2 u).mpr hrest))
        · exact List.mem_append.mpr (Or.inr ((ih hm.2).mpr ⟨r2, hr2, hrest⟩))

theorem findInLinks_eq_find (ls : List PageLink) :
    findInLinks ls = ls.findSome? linkHit := by
  induction ls with
  | nil => rfl
  | cons l ls ih =>
    rw [findInLinks, List.findSome?_cons, linkHit]
    cases hc : hrefHasGithub l with
    | false =>
      rw [if_neg (by simp), if_neg (by simp)]
      exact ih
    | true =>
      rw [if_pos rfl, if_pos rfl]
      cases hm : firstGithubUrl l.href with
      | none => exact ih
      | some m => rfl

theorem findInLinks_eq_head (ls : List PageLink) :
    findInLinks ls = (ls.filterMap linkHit).head? := by
  rw [findInLinks_eq_find]
  induction ls with
  | nil => rfl
  | cons l ls ih =>
    rw [List.findSome?_cons, List.filterMap_cons]
    cases h : linkHit l with
    | none => exact ih
    | some m => rfl

theorem processOne_notSnapBool
    (fetchPage : List Char → Except (List Char) Page)
    (persist : NotionPaperInfo → Except (List Char) Unit)
    (existing : List (List Char)) (p : PaperInfo) :
    isSnapEv (processOne fetchPage persist existing p) = false := by
  simp only [processOne]
  cases hc : existing.contains p.pdf_url with
  | true => rw [if_pos rfl]; rfl
  | false =>
    rw [if_neg (by simp)]
    cases hp : persist (notionInfoOf fetchPage p) with
    | ok v => rfl
    | error e => rfl

theorem processOne_failedBool
    (fetchPage : List Char → Except (List Char) Page)
    (persist : NotionPaperInfo → Except (List Char) Unit)
    (existing : List (List Char)) (p : PaperInfo) :
    isFailEv (processOne fetchPage persist existing p) =
      (!existing.contains p.pdf_url && persistFails fetchPage persist p) := by
  simp only [processOne, persistFails]
  cases hc : existing.contains p.pdf_url with
  | true => rw [if_pos rfl]; rfl
  | false =>
    rw [if_neg (by simp)]
    cases hp : persist (notionInfoOf fetchPage p) with
    | ok v => rfl
    | error e => rfl

theorem snapCount_map (fetchPage : List Char → Except (List Char) Page)
    (persist : NotionPaperInfo → Except (List Char) Unit)
    (existing : List (List Char)) (ps : List PaperInfo) :
    snapCount (ps.map (processOne fetchPage persist existing)) = 0 := by
  induction ps with
  | nil => rfl
  | cons p ps ih =>
    rw [List.map_cons, snapCount, List.filter_cons,
      if_neg (by rw [processOne_notSnapBool]; simp)]
    exact ih

theorem failedCount_map (fetchPage : List Char → Except (List Char) Page)
    (persist : NotionPaperInfo → Except (List Char) Unit)
    (existing : List (List Char)) (papers : List PaperInfo) :
    failedCount (papers.map (processOne fetchPage persist existing)) =
      (papers.filter (fun p =>
        !existing.contains p.pdf_url
          && persistFails fetchPage persist p)).length := by
  induction papers with
  | nil => rfl
  | cons p ps ih =>
    rw [List.map_cons, failedCount, List.filter_cons, List.filter_cons]
    simp only [processOne_failedBool]
    cases h : (!existing.contains p.pdf_url
        && persistFails fetchPage persist p) with
    | false =>
      rw [if_neg (by simp), if_neg (by simp)]
      exact ih
    | true =>
      rw [if_pos rfl, if_pos rfl, List.length_cons, List.length_cons]
      rw [show (List.filter isFailEv
        (List.map (processOne fetchPage persist existing) ps)).length =
          failedCount (List.map (processOne fetchPage persist existing) ps)
        from rfl, ih]

/-! The claim theorems. -/

/-- C4: for every abstract string `A` and keyword list `K`,
`matches_keywords` on the filter constructed from `K` is true if and
only if some case-folded element of `K` occurs as a substring of the
case-folded `A`; for the empty keyword list it is false (matches
nothing, never defaulting to match-all). -/
theorem matches_keywords_spec (A : List Char) (K : List (List Char)) :
    ((ArxivFilter.make K).matches_keywords A = true ↔
      ∃ k ∈ K, toLowerStr k <:+: toLowerStr A) ∧
    (ArxivFilter.make []).matches_keywords A = false := by
  constructor
  · simp only [ArxivFilter.matches_keywords, ArxivFilter.make,
      List.any_eq_true, List.mem_map]
    constructor
    · rintro ⟨k2, ⟨k, hk, rfl⟩, hsub⟩
      exact ⟨k, hk, (containsSub_iff _ _).mp hsub⟩
    · rintro ⟨k, hk, hsub⟩
      exact ⟨toLowerStr k, ⟨k, hk, rfl⟩, (containsSub_iff _ _).mpr hsub⟩
  · rfl

/-- C5: the publication-window check is true if and only if the date
component of the timestamp equals the target date the code derives from
the observed current date (now minus ten days), exactly and with no
tolerance; in particular a timestamp lying on the day before the target
date — at any second of it, 23:59:59 included — does not match. -/
theorem is_published_yesterday_spec (now : Date) (T : DateTime) :
    (ArxivFilter.is_published_yesterday now T = true ↔
      T.date = targetDate now) ∧
    (∀ sec : Nat,
      ArxivFilter.is_published_yesterday now
        ⟨(targetDate now).day - 1, sec⟩ = false) := by
  constructor
  · simp [ArxivFilter.is_published_yesterday]
  · intro sec
    simp only [ArxivFilter.is_published_yesterday,
      decide_eq_false_iff_not]
    intro h
    have hday := congrArg Date.day h
    simp only [DateTime.date, targetDate] at hday
    omega

/-- C9: a network or parse failure while fetching or scanning the paper
page (stages 2/3, reached only when the abstract yields no match) is
caught and treated as no link found: `extract_github_url` returns `none`
instead of propagating the error. -/
theorem extract_fetch_failure_spec (a u e : List Char)
    (fp : List Char → Except (List Char) Page)
    (h1 : firstGithubUrl a = none)
    (h2 : fp (replacePdf u) = Except.error e) :
    extract_github_url fp a u = none := by
  simp [extract_github_url, h1, h2]

/-- C9 witness: a concrete run whose page request raises. -/
theorem extract_fetch_failure_spec_witness :
    extract_github_url noPage "no links here".toList "u.pdf".toList =
      none :=
  extract_fetch_failure_spec "no links here".toList "u.pdf".toList
    "connection refused".toList noPage (by decide) rfl

/-- C7 counterexample: `CsvSaver.save` does not append to the prior
file contents — saving an empty batch over a file holding a header row
and one data row yields just a header row, the earlier row is gone. -/
theorem csv_save_overwrites :
    CsvSaver.save [] [csv_header, [Cell.str "old".toList]] =
        [csv_header] ∧
    [Cell.str "old".toList] ∉
      CsvSaver.save [] [csv_header, [Cell.str "old".toList]] := by
  constructor
  · rfl
  · intro h
    rcases List.mem_singleton.mp h with h2
    have := congrArg List.length h2
    simp [csv_header] at this

/-- C7 amended: `save` opens the file in overwrite mode: whatever the
prior contents, the resulting file is exactly a header row followed by
one row per record in the fixed column order (title, paper_url,
github_url, published, keywords joined by comma-space); rows written by
earlier runs are not preserved. -/
theorem csv_save_spec (papers : List PaperInfo)
    (prior prior2 : List (List Cell)) :
    CsvSaver.save papers prior = CsvSaver.save papers prior2 ∧
    CsvSaver.save papers prior = csv_header :: papers.map csvRowOf ∧
    ∀ p ∈ papers, csvRowOf p =
      [Cell.str p.title, Cell.str p.pdf_url,
        Cell.str (p.github_url.getD []), Cell.time p.published,
        Cell.str (joinCommaSpace p.keywords)] := by
  exact ⟨rfl, rfl, fun p _ => rfl⟩

/-- C7 amended witness: the concrete overwrite run of the
counterexample, through the amended theorem. -/
theorem csv_save_spec_witness :
    CsvSaver.save [paperA] [csv_header, [Cell.str "old".toList]] =
      csv_header :: [paperA].map csvRowOf :=
  (csv_save_spec [paperA] [csv_header, [Cell.str "old".toList]] []).2.1

theorem mem_fetch_papers (K : List (List Char)) (nowq : Date)
    (results : List (ArxivResult × Date)) (p : PaperInfo) :
    p ∈ (fetch_papers K nowq results).2 →
      ∃ rc ∈ results,
        p = paperInfoOf K rc.1 ∧
        (ArxivFilter.make K).matches_keywords rc.1.summary = true ∧
        ArxivFilter.is_published_yesterday rc.2 rc.1.published = true := by
  intro hp
  simp only [fetch_papers, List.mem_filterMap] at hp
  obtain ⟨rc, hrc, hif⟩ := hp
  by_cases hcond : ((ArxivFilter.make K).matches_keywords rc.1.summary
      && ArxivFilter.is_published_yesterday rc.2 rc.1.published) = true
  · rw [if_pos hcond] at hif
    cases hif
    obtain ⟨h1, h2⟩ := Bool.and_eq_true_iff.mp hcond
    exact ⟨rc, hrc, rfl, h1, h2⟩
  · rw [if_neg hcond] at hif
    cases hif

theorem processOne_added_info
    (fetchPage : List Char → Except (List Char) Page)
    (persist : NotionPaperInfo → Except (List Char) Unit)
    (existing : List (List Char)) (p : PaperInfo)
    (t : List Char) (info : NotionPaperInfo)
    (h : processOne fetchPage persist existing p =
      ProcEvent.added t info) :
    t = p.title ∧ info = notionInfoOf fetchPage p := by
  simp only [processOne] at h
  by_cases hc : existing.contains p.pdf_url = true
  · rw [if_pos hc] at h
    cases h
  · rw [if_neg hc] at h
    cases hp : persist (notionInfoOf fetchPage p) with
    | error e => rw [hp] at h; cases h
    | ok v => rw [hp] at h; cases h; exact ⟨rfl, rfl⟩

theorem trace_at (chain : List QueryResp)
    (fetchPage : List Char → Except (List Char) Page)
    (persist : NotionPaperInfo → Except (List Char) Unit)
    (papers : List PaperInfo) (j : Nat) (hj : j < papers.length) :
    (process_papers chain fetchPage persist papers)[j + 1]? =
      some (processOne fetchPage persist
        (NotionClient.get_existing_paper_urls chain)
        (papers.get ⟨j, hj⟩)) := by
  rw [process_papers, List.getElem?_cons_succ, List.getElem?_map,
    List.getElem?_eq_getElem hj]
  simp [List.get_eq_getElem]

/-- C10: every record returned by `fetch_papers` carries the entire
user-supplied keyword list in its original order; the CSV row written
for it stores that full list comma-space-joined, and any Notion page
created for it stores that full list — regardless of which keywords
actually matched the abstract. -/
theorem stored_keywords_full_list (K : List (List Char)) (nowq : Date)
    (results : List (ArxivResult × Date)) (prior : List (List Cell))
    (chain : List QueryResp)
    (fetchPage : List Char → Except (List Char) Page)
    (persist : NotionPaperInfo → Except (List Char) Unit) :
    (∀ p ∈ (fetch_papers K nowq results).2, p.keywords = K) ∧
    (∀ p ∈ (fetch_papers K nowq results).2,
      (csvRowOf p).getLast? = some (Cell.str (joinCommaSpace K)) ∧
      csvRowOf p ∈ CsvSaver.save (fetch_papers K nowq results).2 prior) ∧
    (∀ t info,
      ProcEvent.added t info ∈
        process_papers chain fetchPage persist
          (fetch_papers K nowq results).2 →
      (NotionClient.create_page info).keywords = K) := by
  have hk : ∀ p ∈ (fetch_papers K nowq results).2, p.keywords = K := by
    intro p hp
    obtain ⟨rc, -, rfl, -, -⟩ := mem_fetch_papers K nowq results p hp
    rfl
  refine ⟨hk, ?_, ?_⟩
  · intro p hp
    constructor
    · rw [show (csvRowOf p).getLast? =
          some (Cell.str (joinCommaSpace p.keywords)) from rfl, hk p hp]
    · exact List.mem_cons_of_mem _ (List.mem_map_of_mem csvRowOf hp)
  · intro t info hmem
    rcases List.mem_cons.mp hmem with h | h
    · cases h
    · obtain ⟨p, hp, hpe⟩ := List.mem_map.mp h
      obtain ⟨-, rfl⟩ := processOne_added_info _ _ _ _ _ _ hpe
      simpa [NotionClient.create_page, notionInfoOf] using hk p hp

/-- C10 witness: a concrete fetched record carrying the full keyword
list. -/
theorem stored_keywords_full_list_witness :
    (paperInfoOf kwML resultML).keywords = kwML :=
  (stored_keywords_full_list kwML ⟨100⟩ [(resultML, ⟨100⟩)] [] emptyChain
      noPage (fun _ => Except.ok ())).1
    (paperInfoOf kwML resultML) (by decide)

/-- C1: in a batch, a persist failure for one record is caught and
recorded as a failure event carrying the record's title and reason; the
trace still holds one classification event for every record of the
batch, each record's event is its own per-record classification
(unaffected by other records' outcomes), and the failure is counted in
the failed tally read off the trace. -/
theorem process_isolation (chain : List QueryResp)
    (fetchPage : List Char → Except (List Char) Page)
    (persist : NotionPaperInfo → Except (List Char) Unit)
    (papers : List PaperInfo) (i : Nat) (hi : i < papers.length)
    (e : List Char)
    (hskip : (NotionClient.get_existing_paper_urls chain).contains
      (papers.get ⟨i, hi⟩).pdf_url = false)
    (hfail : persist (notionInfoOf fetchPage (papers.get ⟨i, hi⟩)) =
      Except.error e) :
    (process_papers chain fetchPage persist papers).length =
      papers.length + 1 ∧
    (process_papers chain fetchPage persist papers)[i + 1]? =
      some (ProcEvent.failed (papers.get ⟨i, hi⟩).title e) ∧
    (∀ j, (hj : j < papers.length) →
      (process_papers chain fetchPage persist papers)[j + 1]? =
        some (processOne fetchPage persist
          (NotionClient.get_existing_paper_urls chain)
          (papers.get ⟨j, hj⟩))) ∧
    failedCount (process_papers chain fetchPage persist papers) =
      (papers.filter (fun p =>
        !(NotionClient.get_existing_paper_urls chain).contains p.pdf_url
          && persistFails fetchPage persist p)).length := by
  refine ⟨?_, ?_, ?_, ?_⟩
  · rw [process_papers]
    simp
  · rw [trace_at chain fetchPage persist papers i hi]
    have hev : processOne fetchPage persist
        (NotionClient.get_existing_paper_urls chain)
        (papers.get ⟨i, hi⟩) =
        ProcEvent.failed (papers.get ⟨i, hi⟩).title e := by
      simp only [processOne]
      rw [if_neg (by simp only [hskip]; exact Bool.false_ne_true), hfail]
    rw [hev]
  · intro j hj
    exact trace_at chain fetchPage persist papers j hj
  · rw [process_papers, failedCount, List.filter_cons,
      if_neg (by simp [isFailEv])]
    exact failedCount_map fetchPage persist _ papers

/-- C1 witness: in a concrete three-record batch whose middle record's
persist raises, the middle record yields the failure event, all three
records are classified, and the failed tally is one. -/
theorem process_isolation_witness :
    (process_papers emptyChain noPage persistNotB
      [paperA, paperB, paperC])[2]? =
      some (ProcEvent.failed "B".toList "boom".toList) :=
  (process_isolation emptyChain noPage persistNotB
    [paperA, paperB, paperC] 1 (by decide) "boom".toList
    rfl rfl).2.1

/-- C2: the pipeline takes exactly one existing-identifiers snapshot per
batch run; given the complete (well-formed) cursor chain of the store,
the snapshot holds exactly the non-empty `Paper URL` values of every
page of every response — pagination via `has_more` runs to exhaustion —
and a fetched record is skipped with no store write when its URL is in
the snapshot, while a record whose persist succeeds yields a created
page if and only if its URL is not in the snapshot. -/
theorem dedup_snapshot_spec (chain : List QueryResp)
    (fetchPage : List Char → Except (List Char) Page)
    (persist : NotionPaperInfo → Except (List Char) Unit)
    (papers : List PaperInfo) (hok : chainOk chain = true) :
    snapCount (process_papers chain fetchPage persist papers) = 1 ∧
    (∀ u : List Char,
      u ∈ NotionClient.get_existing_paper_urls chain ↔
        ∃ r ∈ chain, ∃ pg ∈ r.results,
          pg.paper_url = some u ∧ u.isEmpty = false) ∧
    (∀ j, (hj : j < papers.length) →
      ((NotionClient.get_existing_paper_urls chain).contains
          (papers.get ⟨j, hj⟩).pdf_url = true →
        (process_papers chain fetchPage persist papers)[j + 1]? =
          some (ProcEvent.skipped (papers.get ⟨j, hj⟩).title)) ∧
      (persist (notionInfoOf fetchPage (papers.get ⟨j, hj⟩)) =
          Except.ok () →
        ((process_papers chain fetchPage persist papers)[j + 1]? =
            some (ProcEvent.added (papers.get ⟨j, hj⟩).title
              (notionInfoOf fetchPage (papers.get ⟨j, hj⟩))) ↔
          (NotionClient.get_existing_paper_urls chain).contains
            (papers.get ⟨j, hj⟩).pdf_url = false))) := by
  refine ⟨?_, fun u => mem_existing_urls chain u hok, ?_⟩
  · rw [process_papers, snapCount, List.filter_cons,
      if_pos (show isSnapEv ProcEvent.snapshotQuery = true from rfl),
      List.length_cons]
    have h0 := snapCount_map fetchPage persist
      (NotionClient.get_existing_paper_urls chain) papers
    rw [snapCount] at h0
    rw [h0]
  · intro j hj
    have htr := trace_at chain fetchPage persist papers j hj
    constructor
    · intro hc
      rw [htr]
      simp only [processOne]
      rw [if_pos hc]
    · intro hper
      constructor
      · intro hadd
        rw [htr] at hadd
        by_cases hc : (NotionClient.get_existing_paper_urls chain).contains
            (papers.get ⟨j, hj⟩).pdf_url = true
        · exfalso
          simp only [processOne] at hadd
          rw [if_pos hc] at hadd
          cases Option.some.inj hadd
        · exact Bool.not_eq_true _ ▸ hc
      · intro hc
        rw [htr]
        simp only [processOne]
        rw [if_neg (by simp only [hc]; exact Bool.false_ne_true), hper]

/-- C2 witness: a concrete two-response cursor chain is paginated to
exhaustion, and a record whose URL appears in it is skipped. -/
theorem dedup_snapshot_spec_witness :
    "u2".toList ∈ NotionClient.get_existing_paper_urls chain2 :=
  ((dedup_snapshot_spec chain2 noPage (fun _ => Except.ok ()) []
      (by decide)).2.1 "u2".toList).mpr (by decide)

/-- C3 counterexample: on a page whose semantically identified abstract
section contains one repository URL but whose first anchor in document
order is a different repository URL outside that section, the code
returns the out-of-section link — it does not scan an abstract section
first — so extraction does not follow the section-staged fallback. -/
theorem extract_not_staged :
    extract_github_url fetchPage0 [] "u".toList = some ghUrlA ∧
    extract_staged fetchPage0 [] "u".toList = some ghUrlB ∧
    extract_github_url fetchPage0 [] "u".toList ≠
      extract_staged fetchPage0 [] "u".toList := by
  refine ⟨by decide, by decide, by decide⟩

/-- C3 amended: stage 1 returns the first repository-URL regex match in
the abstract in document order, with no dependence on the page fetcher
(no network call); only if stage 1 yields nothing is the rendered page
fetched, and then all of the page's anchor links are scanned in one
pass in document order with no abstract/introduction section
distinction — the first link whose href contains `github.com` and
matches the pattern contributes its first match, a failed fetch yields
nothing, and a single URL (never an aggregate) is returned. -/
theorem extract_fallback_spec (a u : List Char)
    (fp fp2 : List Char → Except (List Char) Page) :
    (∀ g, firstGithubUrl a = some g →
      extract_github_url fp a u = some g ∧
      extract_github_url fp a u = extract_github_url fp2 a u) ∧
    (firstGithubUrl a = none →
      extract_github_url fp a u =
        match fp (replacePdf u) with
        | Except.error _ => none
        | Except.ok page => (page.links.filterMap linkHit).head?) := by
  constructor
  · intro g hg
    constructor <;> simp [extract_github_url, hg]
  · intro hg
    simp only [extract_github_url, hg]
    cases hfp : fp (replacePdf u) with
    | error e => rfl
    | ok page => exact findInLinks_eq_head page.links

/-- C3 amended witness: a concrete abstract whose repository URL stage 1
returns identically under two different page fetchers. -/
theorem extract_fallback_spec_witness :
    extract_github_url noPage
      "code at https://github.com/acme/diffuse today".toList
      "u".toList = some ghUrlB :=
  ((extract_fallback_spec
      "code at https://github.com/acme/diffuse today".toList
      "u".toList noPage fetchPage0).1 ghUrlB (by decide)).1

/-- C6 counterexample: the query window and the filter each derive
their reference date from their own `now()` observation.  With the
query constructed at day 100 (window start day 90), a record published
on day 90 that passes the keyword filter is returned when the filter's
`now()` also falls on day 100, but is dropped when the filter's `now()`
has moved to day 101 — the same query, the same record, different
outcome — so one consistent reference date across query construction
and filter check does not hold for every run. -/
theorem fetch_date_inconsistency :
    (fetch_papers kwML ⟨100⟩ [(resultML, ⟨100⟩)]).2.length = 1 ∧
    (fetch_papers kwML ⟨100⟩ [(resultML, ⟨101⟩)]).1 =
      (fetch_papers kwML ⟨100⟩ [(resultML, ⟨100⟩)]).1 ∧
    (fetch_papers kwML ⟨100⟩ [(resultML, ⟨101⟩)]).2 = [] ∧
    resultML.published.date =
      (fetch_papers kwML ⟨100⟩ [(resultML, ⟨101⟩)]).1.fromDate ∧
    (ArxivFilter.make kwML).matches_keywords resultML.summary = true ∧
    targetDate ⟨101⟩ ≠
      (fetch_papers kwML ⟨100⟩ [(resultML, ⟨101⟩)]).1.fromDate := by
  refine ⟨by decide, by decide, by decide, by decide, by decide, by decide⟩

/-- C6 amended: query construction and the filter check apply the same
ten-day offset to their own `now()` observations, so whenever every
filter-call observation falls on the same date as the
query-construction observation, the reference dates coincide: every
returned paper's published date equals the query window's start date.
Runs whose `now()` observations straddle a date change use different
reference dates. -/
theorem fetch_date_consistency (K : List (List Char)) (nowq : Date)
    (results : List (ArxivResult × Date))
    (h : ∀ rc ∈ results, rc.2 = nowq) :
    ∀ p ∈ (fetch_papers K nowq results).2,
      p.published.date = (fetch_papers K nowq results).1.fromDate := by
  intro p hp
  obtain ⟨rc, hrc, rfl, -, hpub⟩ := mem_fetch_papers K nowq results p hp
  rw [h rc hrc] at hpub
  simp only [ArxivFilter.is_published_yesterday, decide_eq_true_eq]
    at hpub
  simpa [fetch_papers, build_query, paperInfoOf] using hpub

/-- C6 amended witness: with both observations on day 100, the returned
record's published date equals the window start. -/
theorem fetch_date_consistency_witness :
    (paperInfoOf kwML resultML).published.date =
      (fetch_papers kwML ⟨100⟩ [(resultML, ⟨100⟩)]).1.fromDate :=
  fetch_date_consistency kwML ⟨100⟩ [(resultML, ⟨100⟩)]
    (by decide) (paperInfoOf kwML resultML) (by decide)

/-- C8 counterexample: with the csv destination selected and `CSV_PATH`
unset (and likewise for notion with its credentials unset), the run
fails — but the trace shows the fetch running first: the upstream query
is issued although the chosen destination's configuration is absent. -/
theorem config_check_after_fetch :
    main_trace "csv".toList ⟨none, none, none⟩ =
      [MainStep.fetchRun, MainStep.configFailure csvMsg] ∧
    main_trace "notion".toList ⟨none, none, some "p".toList⟩ =
      [MainStep.fetchRun, MainStep.configFailure notionMsg] ∧
    (main_trace "csv".toList ⟨none, none, none⟩).head? =
      some MainStep.fetchRun := by
  refine ⟨by decide, by decide, by decide⟩

/-- C8 amended: only an invalid destination selector fails before the
fetch; missing credentials or paths for the selected destination are
detected only after the fetch has run — the trace is the fetch step
followed by the configuration failure, and no save or persist step
occurs in such a run. -/
theorem config_failure_spec (env : Env) (save_to : List Char) :
    (save_to = "csv".toList → truthy env.csv_path = false →
      main_trace save_to env =
        [MainStep.fetchRun, MainStep.configFailure csvMsg]) ∧
    (save_to = "notion".toList →
      (truthy env.notion_token && truthy env.notion_database_id)
        = false →
      main_trace save_to env =
        [MainStep.fetchRun, MainStep.configFailure notionMsg]) ∧
    (∀ dest : List Char, dest ≠ [] → dest ≠ "csv".toList →
      dest ≠ "notion".toList →
      main_trace dest env = [MainStep.invalidDestination]) := by
  refine ⟨?_, ?_, ?_⟩
  · rintro rfl hcfg
    show MainStep.fetchRun ::
        (if truthy env.csv_path = true then [MainStep.savedCsv]
          else [MainStep.configFailure csvMsg]) =
      [MainStep.fetchRun, MainStep.configFailure csvMsg]
    rw [hcfg, if_neg Bool.false_ne_true]
  · rintro rfl hcfg
    show MainStep.fetchRun ::
        (if (truthy env.notion_token && truthy env.notion_database_id)
            = true then [MainStep.processedNotion]
          else [MainStep.configFailure notionMsg]) =
      [MainStep.fetchRun, MainStep.configFailure notionMsg]
    rw [hcfg, if_neg Bool.false_ne_true]
  · intro dest h0 h1 h2
    simp only [main_trace]
    have hst : (if dest.isEmpty = true then "csv".toList else dest)
        = dest := by
      cases dest with
      | nil => exact absurd rfl h0
      | cons a l => rfl
    rw [hst, if_neg (by rintro (h | h); exacts [h2 h, h1 h])]

/-- C8 amended witness: the concrete missing-CSV-path run. -/
theorem config_failure_spec_witness :
    main_trace "csv".toList ⟨none, none, none⟩ =
      [MainStep.fetchRun, MainStep.configFailure csvMsg] :=
  (config_failure_spec ⟨none, none, none⟩ "csv".toList).1 rfl rfl
